import Mathlib

/-!
# Verification of the resource-janitor eligibility filter and deletion engine

This development embeds the core of the repository's two janitor tools
(`tools/resource-janitor` and `tools/janitor`) in Lean:

* the string helpers (`strings.Split` / `strings.Join` as used by
  `getResourceName` / `GetResourceBasename` / `resourceNamesMatch`);
* the three-stage eligibility filter (blacklist exclusion, singleton
  exclusion, age threshold) in its two implementations (the map-based one in
  `pkg/utils/utils.go` of resource-janitor and the `JanitorMetadata`
  methods `Blacklist` / `Singletons` / `Expired` of the janitor tool);
* the dry-run gating in `cmd/janitor/main.go`;
* the deletion engine (`ParallelImages` / `ParallelInstances` /
  `Parallel` and `deleteWorker` with its operation poll loop), including a
  small transition system for the worker pool.

External collaborators are modelled by parameters: an RFC3339 parse
function (Go `time.Parse(time.RFC3339, ·)`) is any
`String → Except String Int` mapping a timestamp string to a point on the
(totally ordered) time line, and the regexp engine
(`regexp.MustCompile(p).MatchString(n)`) is any
`String → String → Bool` verdict function on (pattern, name) pairs.
All theorems hold for every such collaborator; concrete closed statements
instantiate them with simple executable stand-ins.
-/

/-! ## Go string helpers -/

/-- One step of Go `strings.Split` for a non-empty separator: scan for the
leftmost occurrence of `sep`, cut there, continue after the separator.
`fuel` bounds the recursion; every recursive call consumes at least one
character, so `fuel = length of the input` is always enough. `acc` holds the
(reversed) characters of the current field. -/
def splitGoAux (sep : List Char) : Nat → List Char → List Char → List (List Char)
  | 0, l, acc => [acc.reverse ++ l]
  | fuel + 1, l, acc =>
    match l with
    | [] => [acc.reverse]
    | c :: rest =>
      if sep.isPrefixOf l then
        acc.reverse :: splitGoAux sep fuel (l.drop sep.length) []
      else
        splitGoAux sep fuel rest (c :: acc)

/-- Model of Go `strings.Split(s, sep)`: for an empty separator Go splits
after every character; otherwise it cuts around each leftmost,
non-overlapping occurrence of `sep`. -/
def splitGo (s sep : String) : List String :=
  if sep.data.length = 0 then
    s.data.map (fun c => String.mk [c])
  else
    (splitGoAux sep.data (s.data.length + 1) s.data []).map String.mk

/-- Model of Go `strings.Join(elems, sep)`. -/
def joinGo (elems : List String) (sep : String) : String :=
  String.intercalate sep elems

/-- Returns `true` iff `sep` occurs as a contiguous subsequence of `l` (the verdict
of Go `strings.Contains`); used to state when a name is delimiter-free. -/
def occursIn (sep : List Char) : List Char → Bool
  | [] => sep.isPrefixOf ([] : List Char)
  | c :: rest => sep.isPrefixOf (c :: rest) || occursIn sep rest

/-! ## Data model -/

/-- The fields of a `compute.Image` / `compute.Instance` the filter reads:
the resource name and the raw `creationTimestamp` string. -/
structure Resource where
  name : String
  creationTimestamp : String
deriving DecidableEq, Repr

/-- Embedding of `getResourceName` from resource-janitor `pkg/utils/utils.go`
(identically `GetResourceBasename` in janitor `pkg/utils/utils.go`):
`strings.Join(strings.Split(a, delimiter)[:len-1], delimiter)` — the name
with its final delimiter-separated segment stripped. -/
def getResourceName (a delimiter : String) : String :=
  let aSplit := splitGo a delimiter
  joinGo (aSplit.take (aSplit.length - 1)) delimiter

/-- Embedding of `GetResourceBasename` from janitor `pkg/utils/utils.go`; the body is
the same as `getResourceName`. -/
def GetResourceBasename (a delimiter : String) : String :=
  let aSplit := splitGo a delimiter
  joinGo (aSplit.take (aSplit.length - 1)) delimiter

/-- Embedding of `resourceNamesMatch` from resource-janitor `pkg/utils/utils.go`
(the adjacent-comparison variant): note the source splits on the literal
`"-"` and ignores its `delimiter` parameter. -/
def resourceNamesMatch (a b delimiter : String) : Bool :=
  let aSplit := splitGo a "-"
  let aName := joinGo (aSplit.take (aSplit.length - 1)) "-"
  let bSplit := splitGo b "-"
  let bName := joinGo (bSplit.take (bSplit.length - 1)) "-"
  aName == bName

/-- A simple executable stand-in for `time.Parse(time.RFC3339, s)` used in
closed witnesses: decimal digit strings denote their value on the time
line, anything else fails to parse. (The theorems themselves are stated
for an arbitrary parse function.) -/
def decAux : List Char → Nat → Option Nat
  | [], acc => some acc
  | c :: rest, acc =>
    if c.isDigit then decAux rest (acc * 10 + (c.toNat - 48)) else none

/-- See `decAux`: the concrete timestamp decoder used by witnesses. -/
def toyTimeOf (s : String) : Except String Int :=
  match s.data with
  | [] => .error "parsing time: empty"
  | l =>
    match decAux l 0 with
    | some n => .ok (Int.ofNat n)
    | none => .error "parsing time"

/-- A simple executable stand-in for the regexp verdict used in closed
witnesses: pattern `p` matches name `n` iff `p = n` (the verdict RE2 gives
on these literal pattern/name pairs). -/
def eqMatch (p n : String) : Bool := p == n

/-! ## The eligibility filter, resource-janitor variant
(`src/unnamed/part_000`, the `pkg/utils/utils.go` wired to
`cmd/janitor/main.go`). The paginated listing is modelled by the already
accumulated page items; log calls carry no data flow and are omitted. -/

/-- The blacklist loop inside `GetOldAndNonSingletonImages` /
`GetOldAndNonSingletonInstances` (part_000 lines 25–35): for each listed
resource, for each blacklist pattern, the resource is appended to the
surviving list whenever that one pattern does not match its name.
`matchString p n` is the regexp engine's verdict for pattern `p` on name
`n`. -/
def blacklistStage (matchString : String → String → Bool)
    (blacklist : List String) (items : List Resource) : List Resource :=
  items.flatMap (fun image =>
    blacklist.flatMap (fun blacklistPattern =>
      if !matchString blacklistPattern image.name then [image] else []))

/-- Helper for `getNonSingletonImages`: `seen` is the key set of the Go map
`nonSingletonsMap` (whose values are all `"yes"` and never read back). -/
def getNonSingletonAux (nameDelimiter : String) (seen : List String) :
    List Resource → List Resource
  | [] => []
  | r :: rest =>
    if getResourceName r.name nameDelimiter ∈ seen then
      r :: getNonSingletonAux nameDelimiter seen rest
    else
      getNonSingletonAux nameDelimiter
        (getResourceName r.name nameDelimiter :: seen) rest

/-- Embedding of `getNonSingletonImages` from part_000 (lines 56–74), identically
`getNonSingletonInstances`: the first resource of each naming-scheme key is
recorded in the map and excluded; every later resource with an
already-seen key is appended to the deletion candidates. -/
def getNonSingletonImages (imageList : List Resource) (nameDelimiter : String) :
    List Resource :=
  getNonSingletonAux nameDelimiter [] imageList

/-- Embedding of `getOldImages` from part_000 (lines 76–94), identically
`getOldInstances`: parse each candidate's creation timestamp with
`parseCreationTimestamp` (= `timeOf`, the model of
`time.Parse(time.RFC3339, ·)`); a parse failure returns an error for the
whole call; otherwise keep exactly the candidates with `stamp.Before(t)`,
i.e. strictly less than `t`. -/
def getOldImages (timeOf : String → Except String Int)
    (i : List Resource) (t : Int) : Except String (List Resource) :=
  match i with
  | [] => .ok []
  | image :: rest =>
    match timeOf image.creationTimestamp with
    | .error e => .error ("utils.go: Failed to parse timestamp: " ++ e)
    | .ok stamp =>
      match getOldImages timeOf rest t with
      | .error e => .error e
      | .ok oldImages => .ok (if stamp < t then image :: oldImages else oldImages)

/-- Embedding of `GetOldAndNonSingletonImages` from part_000 (lines 15–54), identically
`GetOldAndNonSingletonInstances`, with the paginated listing replaced by
the listed `items`: blacklist loop, then the singleton stage unless
`deleteSingletons`, then the age stage. -/
def GetOldAndNonSingletonImages (timeOf : String → Except String Int)
    (matchString : String → String → Bool) (items : List Resource) (t : Int)
    (deleteSingletons : Bool) (blacklist : List String)
    (nameDelimiter : String) : Except String (List Resource) :=
  let allImages := blacklistStage matchString blacklist items
  let nonSingletonImages :=
    if !deleteSingletons then getNonSingletonImages allImages nameDelimiter
    else allImages
  match getOldImages timeOf nonSingletonImages t with
  | .error e => .error ("utils.go: Unable to get old images: " ++ e)
  | .ok r => .ok r

/-! ## The eligibility filter, adjacent-comparison variant
(`src/tools/resource-janitor/pkg/utils/utils.go`, the older
`getNonSingletonImages` that compares neighbouring list entries). -/

/-- Helper for `getNonSingletonImagesAdj`: walk the list pairwise; when two
neighbouring names match, the left one is appended to the candidates. The
source's `singleton` variable only selects between log messages and does
not affect the returned list, so it is not carried here. -/
def adjAux (nameDelimiter : String) (prev : Resource) :
    List Resource → List Resource
  | [] => []
  | r :: rest =>
    if resourceNamesMatch prev.name r.name nameDelimiter then
      prev :: adjAux nameDelimiter r rest
    else
      adjAux nameDelimiter r rest

/-- Embedding of `getNonSingletonImages` from resource-janitor `pkg/utils/utils.go`
(lines 42–77), identically `getNonSingletonInstances`: the
adjacent-comparison singleton stage. -/
def getNonSingletonImagesAdj (imageList : List Resource)
    (nameDelimiter : String) : List Resource :=
  match imageList with
  | [] => []
  | first :: rest => adjAux nameDelimiter first rest

/-! ## The eligibility filter, janitor variant
(`tools/janitor/pkg/images/images.go` = `src/unnamed/part_001` second part,
and `tools/janitor/pkg/instances/instances.go`): methods on
`JanitorMetadata` mutating `i.Items`; each method is embedded as a function
from the incoming `Items` to the resulting `Items`. `log.Fatal` terminates
the process and is modelled by `Except.error`. -/

/-- Embedding of `Blacklist` from janitor images.go (lines 264–284) and instances.go
(lines 145–166): with no patterns it returns with `Items` unchanged;
otherwise it runs the same per-pattern append loop as `blacklistStage`. -/
def janitorBlacklist (matchString : String → String → Bool)
    (blacklistPatterns : List String) (items : List Resource) : List Resource :=
  if blacklistPatterns.length = 0 then items
  else blacklistStage matchString blacklistPatterns items

/-- Embedding of `Singletons` from janitor images.go (lines 287–325) and instances.go
(lines 169–207): the same map-keyed loop as `getNonSingletonImages`, with
keys computed by `GetResourceBasename`. -/
def janitorSingletons (nameDelimiter : String) (items : List Resource) :
    List Resource :=
  getNonSingletonAux nameDelimiter [] items

/-- The local list `iml` built by the janitor images `Expired`
(part_001 lines 328–356): a parse failure is `log.Fatal` (process death,
modelled as an error); otherwise the comparison is the source's
`stamp.Before(stamp)` — the timestamp compared with itself — and the
image is appended in the `else` (not-older) branch. `expiredBefore` is
only mentioned in log fields. -/
def expiredIml (timeOf : String → Except String Int) (expiredBefore : Int) :
    List Resource → Except String (List Resource)
  | [] => .ok []
  | r :: rest =>
    match timeOf r.creationTimestamp with
    | .error e => .error e
    | .ok stamp =>
      match expiredIml timeOf expiredBefore rest with
      | .error e => .error e
      | .ok iml => .ok (if stamp < stamp then iml else r :: iml)

/-- Embedding of `Expired` from janitor images.go (part_001 lines 328–356): the method
builds `iml` but never assigns it back to `i.Items`, so on success the
`Items` slice is returned unchanged. -/
def janitorExpired (timeOf : String → Except String Int)
    (expiredBefore : Int) (items : List Resource) :
    Except String (List Resource) :=
  match expiredIml timeOf expiredBefore items with
  | .error e => .error e
  | .ok _ => .ok items

example : getResourceName "web-v12" "-" = "web" := by decide
example : getResourceName "web" "-" = "" := by decide
example : GetResourceBasename "Image-Base-Name-UniqueIdentifier" "-" = "Image-Base-Name" := by decide
example : blacklistStage eqMatch ["a", "b"] [⟨"a", "100"⟩] = [⟨"a", "100"⟩] := by decide
example : blacklistStage eqMatch [] [⟨"a", "100"⟩] = [] := by decide
example : blacklistStage eqMatch ["b", "c"] [⟨"a", "100"⟩] = [⟨"a", "100"⟩, ⟨"a", "100"⟩] := by decide
example : getNonSingletonImages [⟨"web-1", "100"⟩, ⟨"web-2", "200"⟩] "-" = [⟨"web-2", "200"⟩] := by decide
example : getNonSingletonImagesAdj [⟨"web-3", "300"⟩, ⟨"web-2", "200"⟩, ⟨"web-1", "100"⟩] "-"
    = [⟨"web-3", "300"⟩, ⟨"web-2", "200"⟩] := by decide
example : getOldImages toyTimeOf [⟨"img-1", "100"⟩] 100 = .ok [] := rfl
example : getOldImages toyTimeOf [⟨"img-2", "99"⟩] 100 = .ok [⟨"img-2", "99"⟩] := rfl
example : janitorExpired toyTimeOf 100 [⟨"img-1", "100"⟩] = .ok [⟨"img-1", "100"⟩] := rfl

/-! ## The deletion engine
(`src/tools/resource-janitor/pkg/delete/delete.go` and
`src/tools/janitor/pkg/delete/delete.go`). A worker's interaction with the
API is modelled by the sequence of results the API would return: the
result of the delete call itself and the stream of poll results
(`queryDeleteOperation.Do()`), each either a transport error or an
operation snapshot carrying a `Status` string. -/

/-- Outcome of the poll loop in `deleteWorker` (resource-janitor
delete.go lines 75–86, janitor delete.go lines 89–110), run against a
finite stream of poll results; `polls` counts the `Do()` calls consumed.
`exhausted` means the stream ran out with the loop still going (the code
would keep polling); `killedPoll` is `log.Fatal` on a poll error. -/
inductive PollOutcome where
  | done (polls : Nat)
  | killedPoll (polls : Nat) (msg : String)
  | exhausted (polls : Nat)
deriving DecidableEq, Repr

/-- Add one consumed poll to an outcome. -/
def bumpPoll : PollOutcome → PollOutcome
  | .done n => .done (n + 1)
  | .killedPoll n e => .killedPoll (n + 1) e
  | .exhausted n => .exhausted (n + 1)

/-- The poll loop body: sleep, call `Do()`; `log.Fatal` on error; `break`
iff the reported status is `"DONE"`; any other status (including
`"FAILED"`) loops again. -/
def pollLoop : List (Except String String) → PollOutcome
  | [] => .exhausted 0
  | .error e :: _ => .killedPoll 1 e
  | .ok status :: rest =>
    if status = "DONE" then .done 1 else bumpPoll (pollLoop rest)

/-- One deletion job as the worker sees it: the result of `call.Do()` (the
delete call) and the stream of poll results for the resulting operation. -/
structure DJob where
  deleteResult : Except String Unit
  polls : List (Except String String)
deriving Repr

/-- What processing one job does to the worker (deleteWorker body for one
channel element): `log.Fatalf` on a delete-call error, otherwise run the
poll loop; a poll error is again `log.Fatal`. -/
inductive JobOutcome where
  | completedJob
  | fatalErr (msg : String)
  | hungJob
deriving DecidableEq, Repr

/-- See `JobOutcome`. -/
def runJob (j : DJob) : JobOutcome :=
  match j.deleteResult with
  | .error e => .fatalErr e
  | .ok _ =>
    match pollLoop j.polls with
    | .done _ => .completedJob
    | .killedPoll _ e => .fatalErr e
    | .exhausted _ => .hungJob

/-- Result of one worker draining its job channel: `finishedAll n` — the
channel closed after `n` fully processed jobs; `killedRun n msg` — the
process died by `log.Fatalf` after `n` fully processed jobs, the remaining
jobs never being looked at; `stuckRun n` — the worker is inside a poll
loop that never terminates. -/
inductive WorkerRun where
  | finishedAll (n : Nat)
  | killedRun (n : Nat) (msg : String)
  | stuckRun (n : Nat)
deriving DecidableEq, Repr

/-- Count one more fully processed job. -/
def bumpRun : WorkerRun → WorkerRun
  | .finishedAll n => .finishedAll (n + 1)
  | .killedRun n e => .killedRun (n + 1) e
  | .stuckRun n => .stuckRun (n + 1)

/-- Embedding of the `for call := range resourceDeleteCalls` loop of `deleteWorker`
(resource-janitor delete.go lines 60–90) over the jobs the worker
receives, in order. -/
def workerRun : List DJob → WorkerRun
  | [] => .finishedAll 0
  | j :: rest =>
    match runJob j with
    | .completedJob => bumpRun (workerRun rest)
    | .fatalErr e => .killedRun 0 e
    | .hungJob => .stuckRun 0

/-- The error value returned by the engine entry points: `ParallelImages`
(resource-janitor delete.go line 35), `ParallelInstances` (line 57) and
`Parallel` (janitor delete.go line 67) all end in an unconditional
`return nil`, whatever happened to the individual jobs. -/
def parallelReturnedError : Option String := none

/-! ### Worker-pool transition system
`ParallelImages` / `ParallelInstances` / `Parallel` create a job channel
with buffer capacity `workers` (`make(chan …, workers)`), start exactly
`workers` goroutines running `deleteWorker`, feed every job into the
channel (a send blocks while the buffer is full), close the channel, and
join on the wait group. The states reachable from that setup are given by
an interleaving step relation; job identities are irrelevant to the
concurrency bound, so only counts are tracked. -/

/-- Phase of one worker goroutine: waiting on the channel, processing one
job (issuing the delete and polling its operation), or exited after the
channel closed and drained. -/
inductive WPhase where
  | idle
  | busy
  | finished
deriving DecidableEq, Repr

/-- Global state of the engine: jobs the producer has not yet sent, jobs
buffered in the channel, whether the channel is closed, and the phase of
each worker goroutine. -/
structure PoolState where
  pending : Nat
  queued : Nat
  closed : Bool
  ws : List WPhase
deriving DecidableEq, Repr

/-- Number of workers currently processing (and hence polling) a job. -/
def busyCount (ws : List WPhase) : Nat :=
  (ws.filter (fun w => w == WPhase.busy)).length

/-- Initial state of `ParallelImages workers jobs`: all `J` jobs pending,
empty open channel, `workers` goroutines started idle (the `for i := 0;
i < workers; i++ { go deleteWorker(…) }` loop). -/
def initPool (workers jobs : Nat) : PoolState :=
  ⟨jobs, 0, false, List.replicate workers WPhase.idle⟩

/-- Interleaving steps of the engine with channel capacity `cap`:
a send succeeds only while the buffer holds fewer than `cap` jobs
(otherwise the producer is blocked — Go buffered-channel semantics);
`close` happens after the last send; an idle worker can take a buffered
job and become busy; a busy worker can finish its job; an idle worker
exits once the channel is closed and empty. -/
inductive PoolStep (cap : Nat) : PoolState → PoolState → Prop
  | send {p q ws} : q < cap →
      PoolStep cap ⟨p + 1, q, false, ws⟩ ⟨p, q + 1, false, ws⟩
  | closeChan {q ws} :
      PoolStep cap ⟨0, q, false, ws⟩ ⟨0, q, true, ws⟩
  | takeJob {p q c ws i} : ws[i]? = some WPhase.idle →
      PoolStep cap ⟨p, q + 1, c, ws⟩ ⟨p, q, c, ws.set i WPhase.busy⟩
  | finishJob {p q c ws i} : ws[i]? = some WPhase.busy →
      PoolStep cap ⟨p, q, c, ws⟩ ⟨p, q, c, ws.set i WPhase.idle⟩
  | exitWorker {p ws i} : ws[i]? = some WPhase.idle →
      PoolStep cap ⟨p, 0, true, ws⟩ ⟨p, 0, true, ws.set i WPhase.finished⟩

/-- States reachable by the engine started with `workers` workers (channel
capacity `workers`, per `make(chan resourceDelete, workers)`) on `jobs`
jobs. -/
inductive PoolReach (workers jobs : Nat) : PoolState → Prop
  | init : PoolReach workers jobs (initPool workers jobs)
  | step {s t} : PoolReach workers jobs s → PoolStep workers s t →
      PoolReach workers jobs t

example : pollLoop [.ok "FAILED", .ok "DONE"] = .done 2 := by decide
example : pollLoop [.ok "PENDING", .ok "RUNNING", .ok "DONE"] = .done 3 := by decide
example : pollLoop [.ok "FAILED", .ok "FAILED"] = .exhausted 2 := by decide
example : workerRun [⟨.error "quota", []⟩, ⟨.ok (), [.ok "DONE"]⟩] = .killedRun 0 "quota" := rfl

/-! ## Dry-run gating
(`src/tools/resource-janitor/cmd/janitor/main.go`, `deleteImages` lines
105–127 and `deleteInstances` lines 129–149). Each goroutine's visible
behaviour is the ordered list of the actions it takes; the selection
result and the engine's returned error are inputs, since they come from
collaborators. -/

/-- The observable actions of `deleteImages` / `deleteInstances`. -/
inductive MainEvent where
  | select
  | fatalSelection
  | logNone
  | logIssuing
  | invokeDeleteAll
  | fatalDeletion
  | logSuccess
deriving DecidableEq, Repr

/-- Embedding of `deleteImages` from main.go (lines 105–127): always call
`utils.GetOldAndNonSingletonImages` (which performs the per-resource
decision logging); `log.Fatalf` if it errors; log when the eligible list
is empty; and only under `if notDryRun` invoke `delete.ParallelImages`,
then `log.Fatalf` on its error or log success. -/
def deleteImagesRun (selection : Except String (List Resource))
    (deleteAllResult : Option String) (notDryRun : Bool) : List MainEvent :=
  match selection with
  | .error _ => [.select, .fatalSelection]
  | .ok images =>
    [MainEvent.select]
      ++ (if images.length = 0 then [MainEvent.logNone] else [])
      ++ (if notDryRun then
            [MainEvent.logIssuing, MainEvent.invokeDeleteAll]
              ++ (match deleteAllResult with
                  | some _ => [MainEvent.fatalDeletion]
                  | none => [MainEvent.logSuccess])
          else [])

/-- Embedding of `deleteInstances` from main.go (lines 129–149): same structure as
`deleteImages` with `GetOldAndNonSingletonInstances` and
`ParallelInstances`. -/
def deleteInstancesRun (selection : Except String (List Resource))
    (deleteAllResult : Option String) (notDryRun : Bool) : List MainEvent :=
  match selection with
  | .error _ => [.select, .fatalSelection]
  | .ok instances =>
    [MainEvent.select]
      ++ (if instances.length = 0 then [MainEvent.logNone] else [])
      ++ (if notDryRun then
            [MainEvent.logIssuing, MainEvent.invokeDeleteAll]
              ++ (match deleteAllResult with
                  | some _ => [MainEvent.fatalDeletion]
                  | none => [MainEvent.logSuccess])
          else [])

/-- Returns `true` iff a selection result is a successful listing. -/
def selOk (selection : Except String (List Resource)) : Bool :=
  match selection with
  | .ok _ => true
  | .error _ => false

example : deleteImagesRun (.ok [⟨"a", "1"⟩]) none false = [.select] := rfl
example : deleteImagesRun (.ok [⟨"a", "1"⟩]) none true
    = [.select, .logIssuing, .invokeDeleteAll, .logSuccess] := rfl

/-! ## Helper lemmas -/

/-- Characterization of the map-keyed singleton loop: restricted to one
naming-scheme key `k`, the candidate list is the whole key group when `k`
was already seen, and the key group minus its first element otherwise. -/
theorem getNonSingletonAux_filter (d k : String) (l : List Resource) :
    ∀ seen : List String,
      (getNonSingletonAux d seen l).filter
          (fun r => getResourceName r.name d == k)
        = if k ∈ seen then
            l.filter (fun r => getResourceName r.name d == k)
          else
            (l.filter (fun r => getResourceName r.name d == k)).tail := by
  induction l with
  | nil => intro seen; simp [getNonSingletonAux]
  | cons r rest ih =>
    intro seen
    by_cases hkey : getResourceName r.name d = k
    · by_cases hseen : k ∈ seen
      · have hmem : getResourceName r.name d ∈ seen := hkey ▸ hseen
        simp [getNonSingletonAux, hmem, hseen, List.filter_cons, hkey, ih]
      · have hmem : getResourceName r.name d ∉ seen := fun h => hseen (hkey ▸ h)
        have hseen' : k ∈ getResourceName r.name d :: seen := by
          simp [hkey]
        simp [getNonSingletonAux, hmem, hseen, List.filter_cons, hkey, ih,
          hseen']
    · by_cases hseen : k ∈ seen
      · by_cases hmem : getResourceName r.name d ∈ seen
        · simp [getNonSingletonAux, hmem, hseen, List.filter_cons, hkey, ih]
        · have hseen' : k ∈ getResourceName r.name d :: seen := by
            simp [hseen]
          simp [getNonSingletonAux, hmem, hseen, List.filter_cons, hkey, ih,
            hseen']
      · by_cases hmem : getResourceName r.name d ∈ seen
        · simp [getNonSingletonAux, hmem, hseen, List.filter_cons, hkey, ih]
        · have hseen' : k ∉ getResourceName r.name d :: seen := by
            intro hc
            rcases List.mem_cons.mp hc with hc | hc
            · exact hkey hc.symm
            · exact hseen hc
          simp [getNonSingletonAux, hmem, hseen, List.filter_cons, hkey, ih,
            hseen']

/-- The candidates produced by the singleton loop come from its input. -/
theorem getNonSingletonAux_subset (d : String) (l : List Resource) :
    ∀ seen : List String, ∀ x ∈ getNonSingletonAux d seen l, x ∈ l := by
  induction l with
  | nil =>
    intro seen x hx
    simp [getNonSingletonAux] at hx
  | cons r rest ih =>
    intro seen x hx
    by_cases hmem : getResourceName r.name d ∈ seen
    · simp only [getNonSingletonAux, if_pos hmem] at hx
      rcases List.mem_cons.mp hx with hx1 | hx1
      · simp [hx1]
      · exact List.mem_cons_of_mem _ (ih _ x hx1)
    · simp only [getNonSingletonAux, if_neg hmem] at hx
      exact List.mem_cons_of_mem _ (ih _ x hx)

/-- The eligible set produced by the age stage comes from its input. -/
theorem getOldImages_subset (timeOf : String → Except String Int)
    (l : List Resource) (t : Int) (res : List Resource)
    (h : getOldImages timeOf l t = .ok res) : ∀ x ∈ res, x ∈ l := by
  induction l generalizing res with
  | nil =>
    intro x hx
    simp only [getOldImages] at h
    cases h
    simp at hx
  | cons r rest ih =>
    intro x hx
    simp only [getOldImages] at h
    cases hts : timeOf r.creationTimestamp with
    | error e => rw [hts] at h; cases h
    | ok stamp =>
      rw [hts] at h
      cases hrec : getOldImages timeOf rest t with
      | error e => rw [hrec] at h; cases h
      | ok old =>
        rw [hrec] at h
        injection h with h'
        subst h'
        by_cases hlt : stamp < t
        · rw [if_pos hlt] at hx
          rcases List.mem_cons.mp hx with hx1 | hx1
          · simp [hx1]
          · exact List.mem_cons_of_mem _ (ih old hrec x hx1)
        · rw [if_neg hlt] at hx
          exact List.mem_cons_of_mem _ (ih old hrec x hx)

/-- If any resource in the age stage's input has an unparsable timestamp,
the whole call returns an error. -/
theorem getOldImages_error_of_bad (timeOf : String → Except String Int)
    (l : List Resource) (t : Int)
    (h : ∃ r ∈ l, ∃ e, timeOf r.creationTimestamp = Except.error e) :
    ∃ e, getOldImages timeOf l t = Except.error e := by
  induction l with
  | nil => rcases h with ⟨r, hr, _⟩; simp at hr
  | cons r rest ih =>
    cases hts : timeOf r.creationTimestamp with
    | error e =>
      exact ⟨"utils.go: Failed to parse timestamp: " ++ e, by
        simp [getOldImages, hts]⟩
    | ok stamp =>
      rcases h with ⟨x, hx, e, he⟩
      rcases List.mem_cons.mp hx with hx | hx
      · rw [hx] at he; rw [he] at hts; cases hts
      · rcases ih ⟨x, hx, e, he⟩ with ⟨e', he'⟩
        exact ⟨e', by simp [getOldImages, hts, he']⟩

/-- An empty separator occurs in every string. -/
theorem occursIn_nil_sep (l : List Char) : occursIn [] l = true := by
  cases l <;> simp [occursIn, List.isPrefixOf]

/-- When the separator does not occur in the input, the split scan runs to
the end and produces the single field `acc.reverse ++ l`. -/
theorem splitGoAux_no_occ (sep : List Char) (l : List Char) :
    occursIn sep l = false →
      ∀ fuel, l.length ≤ fuel → ∀ acc,
        splitGoAux sep fuel l acc = [acc.reverse ++ l] := by
  induction l with
  | nil =>
    intro _ fuel _ acc
    cases fuel <;> simp [splitGoAux]
  | cons c rest ih =>
    intro hocc fuel hfuel acc
    have hocc' := hocc
    simp only [occursIn, Bool.or_eq_false_iff] at hocc'
    cases fuel with
    | zero => simp at hfuel
    | succ f =>
      have hrest : rest.length ≤ f := by
        simpa using hfuel
      simp only [splitGoAux, hocc'.1]
      rw [if_neg (by simp [hocc'.1])]
      rw [ih hocc'.2 f hrest (c :: acc)]
      simp

/-- Go `strings.Split(s, sep)` returns `[s]` when `sep` does not occur in `s`. -/
theorem splitGo_of_no_occ (s sep : String)
    (h : occursIn sep.data s.data = false) : splitGo s sep = [s] := by
  have hsep : sep.data ≠ [] := by
    intro hc
    rw [hc, occursIn_nil_sep] at h
    cases h
  unfold splitGo
  rw [if_neg (fun hc => hsep (List.length_eq_zero.mp hc))]
  rw [splitGoAux_no_occ sep.data s.data h (s.data.length + 1)
    (Nat.le_succ _) []]
  cases s
  rfl

/-- A name in which the configured delimiter does not occur has the empty
string as its derived naming-scheme key. -/
theorem getResourceName_empty_of_no_delim (a d : String)
    (h : occursIn d.data a.data = false) : getResourceName a d = "" := by
  unfold getResourceName
  rw [splitGo_of_no_occ a d h]
  rfl

/-- When every input resource has the same naming-scheme key, the singleton
stage keeps everything but the first-listed resource. -/
theorem getNonSingleton_all_same (d k : String) (l : List Resource)
    (h : ∀ r ∈ l, getResourceName r.name d = k) :
    getNonSingletonImages l d = l.tail := by
  have h1 := getNonSingletonAux_filter d k l []
  rw [if_neg (List.not_mem_nil k)] at h1
  have hfl : l.filter (fun r => getResourceName r.name d == k) = l :=
    List.filter_eq_self.mpr (fun a ha => by simpa using h a ha)
  have hfc : (getNonSingletonAux d [] l).filter
      (fun r => getResourceName r.name d == k) = getNonSingletonAux d [] l :=
    List.filter_eq_self.mpr (fun a ha => by
      simpa using h a (getNonSingletonAux_subset d l [] a ha))
  unfold getNonSingletonImages
  rw [← hfc, h1, hfl]

/-! ## Claim theorems -/

/-- C1: the blacklist stage is NOT a filter. Evaluating the embedded
blacklist loop (part_000 lines 25–35) at concrete inputs: with patterns
`["a", "b"]` the resource named `"a"` matches pattern `"a"` yet survives
(appended for the non-matching pattern `"b"`); with an empty pattern set
the stage drops every resource instead of being the identity; with
patterns `["b", "c"]` the resource named `"a"` is emitted twice, not once.
The janitor `Blacklist` method (instances.go lines 145–166) returns
unchanged items for an empty pattern set but lets the matched resource
through all the same. -/
theorem c1_blacklist_is_not_a_filter :
    blacklistStage eqMatch ["a", "b"] [⟨"a", "100"⟩] = [⟨"a", "100"⟩]
      ∧ blacklistStage eqMatch [] [⟨"a", "100"⟩] = []
      ∧ blacklistStage eqMatch ["b", "c"] [⟨"a", "100"⟩]
          = [⟨"a", "100"⟩, ⟨"a", "100"⟩]
      ∧ janitorBlacklist eqMatch ["a", "b"] [⟨"a", "100"⟩] = [⟨"a", "100"⟩]
      ∧ janitorBlacklist eqMatch [] [⟨"a", "100"⟩] = [⟨"a", "100"⟩] :=
  ⟨rfl, rfl, rfl, rfl, rfl⟩

/-- C2 counterexample: the singleton stage does not retain the newest
member of a group regardless of input order. With the two-element group
listed oldest-first, the map-keyed stage (part_000 lines 56–74) retains
`web-1` (the older) and marks `web-2` (the newest) as the deletion
candidate; the adjacent-comparison variant
(resource-janitor utils.go lines 42–77) marks the newest `web-3` as a
candidate even on a group of three listed newest-first. -/
theorem c2_newest_not_retained :
    toyTimeOf "100" = .ok 100 ∧ toyTimeOf "200" = .ok 200
      ∧ getNonSingletonImages [⟨"web-1", "100"⟩, ⟨"web-2", "200"⟩] "-"
          = [⟨"web-2", "200"⟩]
      ∧ getNonSingletonImagesAdj
          [⟨"web-3", "300"⟩, ⟨"web-2", "200"⟩, ⟨"web-1", "100"⟩] "-"
          = [⟨"web-3", "300"⟩, ⟨"web-2", "200"⟩] :=
  ⟨rfl, rfl, by decide, by decide⟩

/-- C2 amended: restricted to any naming-scheme key `k`, the candidate
list produced by the map-keyed singleton stage is exactly the key group
minus its first-listed member — so for every group of size ≥ 2, precisely
the first-listed member is retained (the newest only when the input is
sorted newest-first) and all others pass on to the age stage. -/
theorem c2_first_listed_retained (l : List Resource) (d k : String) :
    (getNonSingletonImages l d).filter
        (fun r => getResourceName r.name d == k)
      = (l.filter (fun r => getResourceName r.name d == k)).tail := by
  have h := getNonSingletonAux_filter d k l []
  rw [if_neg (List.not_mem_nil k)] at h
  exact h

/-- C3: the age stage of resource-janitor (`getOldImages`, part_000 lines
76–94) does use the strict `stamp.Before(t)` rule: a resource whose
timestamp equals the threshold is excluded and a strictly older one is
selected. The janitor images `Expired` (part_001 lines 328–356), however,
compares `stamp.Before(stamp)` — always false — and discards the list it
builds without reassigning `i.Items`, so it removes nothing: an image at
the threshold, and any image however old, remains eligible after it. -/
theorem c3_expired_stage_filters_nothing :
    getOldImages toyTimeOf [⟨"img-1", "100"⟩] 100 = .ok []
      ∧ getOldImages toyTimeOf [⟨"img-2", "99"⟩] 100 = .ok [⟨"img-2", "99"⟩]
      ∧ janitorExpired toyTimeOf 100 [⟨"img-1", "100"⟩] = .ok [⟨"img-1", "100"⟩]
      ∧ janitorExpired toyTimeOf 100 [⟨"img-3", "50"⟩, ⟨"img-1", "100"⟩]
          = .ok [⟨"img-3", "50"⟩, ⟨"img-1", "100"⟩] :=
  ⟨rfl, rfl, rfl, rfl⟩

/-- C4: in `deleteImages` and `deleteInstances` (main.go lines 105–149)
the deletion engine is invoked exactly when the `not-dry-run` flag is set
and selection succeeded, and the selection call (with its per-resource
decision logging) runs on every path — so with dryRun in effect
(`notDryRun = false`) `ParallelImages` / `ParallelInstances` is never
reached while selection still runs in full. -/
theorem c4_dry_run_short_circuits (selection : Except String (List Resource))
    (deleteAllResult : Option String) (notDryRun : Bool) :
    ((MainEvent.invokeDeleteAll
          ∈ deleteImagesRun selection deleteAllResult notDryRun
        ↔ notDryRun = true ∧ selOk selection = true)
      ∧ MainEvent.select ∈ deleteImagesRun selection deleteAllResult notDryRun)
    ∧ ((MainEvent.invokeDeleteAll
          ∈ deleteInstancesRun selection deleteAllResult notDryRun
        ↔ notDryRun = true ∧ selOk selection = true)
      ∧ MainEvent.select
          ∈ deleteInstancesRun selection deleteAllResult notDryRun) := by
  cases selection with
  | error e =>
    cases notDryRun <;> simp [deleteImagesRun, deleteInstancesRun, selOk]
  | ok images =>
    cases notDryRun <;> cases deleteAllResult <;>
      by_cases h : images.length = 0 <;>
        simp [deleteImagesRun, deleteInstancesRun, selOk, h]

/-- C5: in `GetOldAndNonSingletonImages` (part_000 lines 42–47), with
`deleteSingletons = true` the singleton stage is skipped entirely — the
age stage runs directly on the blacklist survivors; with
`deleteSingletons = false`, a resource that is alone in its naming-scheme
group among the blacklist survivors never appears in the final eligible
set. -/
theorem c5_singletons_protected (timeOf : String → Except String Int)
    (matchString : String → String → Bool) (blacklist : List String)
    (d : String) (t : Int) (items : List Resource) :
    (∀ res, getOldImages timeOf (blacklistStage matchString blacklist items) t
        = .ok res →
      GetOldAndNonSingletonImages timeOf matchString items t true blacklist d
        = .ok res)
    ∧ (∀ r res,
        (blacklistStage matchString blacklist items).filter
            (fun x => getResourceName x.name d == getResourceName r.name d)
          = [r] →
        GetOldAndNonSingletonImages timeOf matchString items t false blacklist d
          = .ok res →
        r ∉ res) := by
  constructor
  · intro res hres
    simp only [GetOldAndNonSingletonImages, Bool.not_true, if_neg]
    rw [if_neg (by simp)]
    rw [hres]
  · intro r res hgroup hrun hmem
    set surv := blacklistStage matchString blacklist items with hsurv
    have hpipe : getOldImages timeOf (getNonSingletonImages surv d) t
        = .ok res := by
      simp only [GetOldAndNonSingletonImages, Bool.not_false, if_pos] at hrun
      cases hold : getOldImages timeOf (getNonSingletonImages surv d) t with
      | error e => rw [← hsurv, hold] at hrun; cases hrun
      | ok res' => rw [← hsurv, hold] at hrun; cases hrun; rfl
    have hcand : r ∈ getNonSingletonImages surv d :=
      getOldImages_subset timeOf _ t res hpipe r hmem
    have hfilter := c2_first_listed_retained surv d (getResourceName r.name d)
    rw [hgroup] at hfilter
    have : r ∈ (getNonSingletonImages surv d).filter
        (fun x => getResourceName x.name d == getResourceName r.name d) :=
      List.mem_filter.mpr ⟨hcand, by simp⟩
    rw [hfilter] at this
    simp at this

/-- C5 witness: in a blacklist-surviving set where `solo-1` is alone in
its naming-scheme group, `solo-1` is absent from the final eligible set
computed with `deleteSingletons = false`. -/
theorem c5_singletons_protected_witness :
    ((blacklistStage eqMatch ["zzz"]
        [⟨"solo-1", "100"⟩, ⟨"web-1", "100"⟩, ⟨"web-2", "200"⟩]).filter
        (fun x => getResourceName x.name "-"
          == getResourceName (Resource.mk "solo-1" "100").name "-")
      = [⟨"solo-1", "100"⟩])
    ∧ (⟨"solo-1", "100"⟩ : Resource) ∉ [(⟨"web-2", "200"⟩ : Resource)] :=
  ⟨by decide,
    (c5_singletons_protected toyTimeOf eqMatch ["zzz"] "-" 1000
        [⟨"solo-1", "100"⟩, ⟨"web-1", "100"⟩, ⟨"web-2", "200"⟩]).2
      ⟨"solo-1", "100"⟩ [⟨"web-2", "200"⟩] (by decide) rfl⟩

/-- C6 counterexample: a failed delete call is not a per-job failure. In
`deleteWorker` (resource-janitor delete.go lines 60–90) the first job's
delete-call error is `log.Fatalf`: the run dies with zero jobs completed
and the second (perfectly fine) job is never looked at; and the engine
entry points return `nil` unconditionally, so no aggregate error ever
reports the failure. -/
theorem c6_delete_error_kills_process :
    workerRun [⟨.error "quota", []⟩, ⟨.ok (), [.ok "DONE"]⟩]
        = .killedRun 0 "quota"
      ∧ parallelReturnedError = none :=
  ⟨rfl, rfl⟩

/-- C6 amended: when a job's delete call or one of its operation polls
fails, the worker does not record the failure and move on — the process
is killed by `log.Fatalf` right there, after exactly the preceding jobs
were processed and with all later jobs unprocessed; and the engine result
(`ParallelImages` / `ParallelInstances` / `Parallel`) is always `nil`,
never an aggregate of per-job failures. -/
theorem c6_fatal_on_job_failure (pre : List DJob) (j : DJob)
    (rest : List DJob) (e : String)
    (hpre : ∀ p ∈ pre, runJob p = .completedJob)
    (hj : runJob j = .fatalErr e) :
    workerRun (pre ++ j :: rest) = .killedRun pre.length e
      ∧ parallelReturnedError = none := by
  refine ⟨?_, rfl⟩
  induction pre with
  | nil => simp [workerRun, hj]
  | cons p ps ih =>
    have hp : runJob p = .completedJob := hpre p (List.mem_cons_self p ps)
    have hrest := ih (fun q hq => hpre q (List.mem_cons_of_mem p hq))
    simp [workerRun, hp, hrest, bumpRun]

/-- C6 witness: with one good job before and one after, a poll failure on
the middle job kills the run after exactly one completed job. -/
theorem c6_fatal_on_job_failure_witness :
    (∀ p ∈ [(⟨.ok (), [.ok "DONE"]⟩ : DJob)], runJob p = .completedJob)
      ∧ runJob ⟨.ok (), [.error "404"]⟩ = .fatalErr "404"
      ∧ (workerRun [⟨.ok (), [.ok "DONE"]⟩, ⟨.ok (), [.error "404"]⟩,
            ⟨.ok (), [.ok "DONE"]⟩]
          = .killedRun 1 "404"
        ∧ parallelReturnedError = none) :=
  ⟨by decide, rfl,
    c6_fatal_on_job_failure [⟨.ok (), [.ok "DONE"]⟩] ⟨.ok (), [.error "404"]⟩
      [⟨.ok (), [.ok "DONE"]⟩] "404" (by decide) rfl⟩

/-- C7 counterexample: `FAILED` is not terminal for the poll loop
(resource-janitor delete.go lines 75–86, janitor delete.go lines 89–110):
after observing status `FAILED` the loop polls again — here a second poll
happens and the loop ends only at the later `DONE`; a stream of only
`FAILED` statuses never terminates the loop at all. -/
theorem c7_failed_is_not_terminal :
    pollLoop [.ok "FAILED", .ok "DONE"] = .done 2
      ∧ pollLoop (List.replicate 5 (.ok "FAILED")) = .exhausted 5 :=
  ⟨rfl, by decide⟩

/-- C7 amended: the poll loop terminates exactly at the first poll whose
status is `DONE`; any number of preceding `FAILED` observations are polled
straight through, a `FAILED`-only stream never terminates the loop, and a
poll transport error kills the process (`log.Fatal`) rather than being
reported as an operation failure. -/
theorem c7_done_is_the_only_terminal (n : Nat)
    (rest : List (Except String String)) (e : String) :
    pollLoop (List.replicate n (.ok "FAILED") ++ .ok "DONE" :: rest)
        = .done (n + 1)
      ∧ pollLoop (List.replicate n (.ok "FAILED")) = .exhausted n
      ∧ pollLoop (.error e :: rest) = .killedPoll 1 e := by
  refine ⟨?_, ?_, rfl⟩
  · induction n with
    | zero => rfl
    | succ m ih =>
      rw [List.replicate_succ, List.cons_append]
      simp only [pollLoop]
      rw [if_neg (by decide)]
      rw [ih]
      rfl
  · induction n with
    | zero => rfl
    | succ m ih =>
      rw [List.replicate_succ]
      simp only [pollLoop]
      rw [if_neg (by decide)]
      rw [ih]
      rfl

/-- C8 counterexample: one unparsable creationTimestamp does not merely
exclude that resource — `getOldImages` (part_000 lines 79–85) aborts the
whole call with an error, so the parsable, strictly-older `img-good` is
not selected either (and the caller in main.go then treats the error as
fatal). -/
theorem c8_parse_failure_not_isolated :
    toyTimeOf "bad" = .error "parsing time"
      ∧ toyTimeOf "50" = .ok 50
      ∧ getOldImages toyTimeOf [⟨"img-bad", "bad"⟩, ⟨"img-good", "50"⟩] 100
          = .error "utils.go: Failed to parse timestamp: parsing time" :=
  ⟨rfl, rfl, rfl⟩

/-- C8 amended: if any resource in the age stage's input has an
unparsable creationTimestamp, the whole stage returns an error for that
resource kind — no eligible set is produced at all (the janitor variant's
`Expired` even calls `log.Fatal`, killing the process). -/
theorem c8_parse_failure_aborts_kind (timeOf : String → Except String Int)
    (l : List Resource) (t : Int) (r : Resource) (hr : r ∈ l) (e : String)
    (he : timeOf r.creationTimestamp = Except.error e) :
    ∃ msg, getOldImages timeOf l t = Except.error msg :=
  getOldImages_error_of_bad timeOf l t ⟨r, hr, e, he⟩

/-- C8 witness: the list with one bad and one good timestamp yields an
error for the whole kind. -/
theorem c8_parse_failure_aborts_kind_witness :
    (⟨"img-bad", "bad"⟩ : Resource) ∈
        [(⟨"img-bad", "bad"⟩ : Resource), ⟨"img-good", "50"⟩]
      ∧ ∃ msg, getOldImages toyTimeOf
          [⟨"img-bad", "bad"⟩, ⟨"img-good", "50"⟩] 100 = Except.error msg :=
  ⟨by decide,
    c8_parse_failure_aborts_kind toyTimeOf
      [⟨"img-bad", "bad"⟩, ⟨"img-good", "50"⟩] 100 ⟨"img-bad", "bad"⟩
      (by decide) "parsing time" rfl⟩

/-- The number of busy workers never exceeds the number of worker
entries. -/
theorem busyCount_le_length (ws : List WPhase) : busyCount ws ≤ ws.length :=
  List.length_filter_le _ ws

/-- C9: in every state reachable by the engine started with `workers`
workers on any number of jobs, the worker list still has exactly
`workers` entries (exactly `workers` goroutines are started and none is
ever added), at most `workers` of them are busy processing — hence at
most `workers` operations are concurrently polled, since each operation
is polled only by the worker that owns it — and the channel never buffers
more than `workers` jobs (its capacity from `make(chan …, workers)`; a
send while it is full blocks until a worker frees a slot). -/
theorem c9_at_most_workers_polling (workers jobs : Nat) (s : PoolState)
    (h : PoolReach workers jobs s) :
    s.ws.length = workers ∧ busyCount s.ws ≤ workers
      ∧ s.queued ≤ workers := by
  induction h with
  | init =>
    refine ⟨List.length_replicate _ _, ?_, Nat.zero_le _⟩
    exact le_of_le_of_eq (busyCount_le_length _) (List.length_replicate _ _)
  | step hr hstep ih =>
    rcases ih with ⟨hlen, _, hq⟩
    cases hstep with
    | send hlt =>
      exact ⟨hlen, le_of_le_of_eq (busyCount_le_length _) hlen, hlt⟩
    | closeChan =>
      exact ⟨hlen, le_of_le_of_eq (busyCount_le_length _) hlen, hq⟩
    | takeJob hidle =>
      refine ⟨?_, ?_, Nat.le_of_succ_le hq⟩
      · simp only [List.length_set]
        exact hlen
      · exact le_of_le_of_eq (busyCount_le_length _)
          (by simp only [List.length_set]; exact hlen)
    | finishJob hbusy =>
      refine ⟨?_, ?_, hq⟩
      · simp only [List.length_set]
        exact hlen
      · exact le_of_le_of_eq (busyCount_le_length _)
          (by simp only [List.length_set]; exact hlen)
    | exitWorker hidle =>
      refine ⟨?_, ?_, Nat.zero_le _⟩
      · simp only [List.length_set]
        exact hlen
      · exact le_of_le_of_eq (busyCount_le_length _)
          (by simp only [List.length_set]; exact hlen)

/-- C9 witness: the bound instantiated at the initial state of a pool of
2 workers over 5 jobs. -/
theorem c9_at_most_workers_polling_witness :
    (initPool 2 5).ws.length = 2 ∧ busyCount (initPool 2 5).ws ≤ 2
      ∧ (initPool 2 5).queued ≤ 2 :=
  c9_at_most_workers_polling 2 5 (initPool 2 5) PoolReach.init

/-- C10: for every resource whose name does not contain the configured
delimiter the derived naming-scheme key (`getResourceName`, identically
`GetResourceBasename`) is the empty string; consequently, on a list of
delimiter-free names they all share the one key `""` and the map-keyed
singleton stage retains exactly the first-listed resource, making every
other delimiter-free resource a deletion candidate. -/
theorem c10_delimiter_free_share_one_group (d : String) (l : List Resource)
    (hfree : ∀ r ∈ l, occursIn d.data r.name.data = false) :
    (∀ r ∈ l, getResourceName r.name d = ""
        ∧ GetResourceBasename r.name d = "")
      ∧ getNonSingletonImages l d = l.tail := by
  have hbase : ∀ a delim : String,
      GetResourceBasename a delim = getResourceName a delim := fun _ _ => rfl
  have hkey : ∀ r ∈ l, getResourceName r.name d = "" := fun r hr =>
    getResourceName_empty_of_no_delim r.name d (hfree r hr)
  exact ⟨fun r hr => ⟨hkey r hr, (hbase r.name d).trans (hkey r hr)⟩,
    getNonSingleton_all_same d "" l hkey⟩

/-- C10 witness: `web` and `api` contain no `-`, both get key `""`, and
only the first-listed (`web`) is retained — `api` becomes a candidate. -/
theorem c10_delimiter_free_share_one_group_witness :
    (∀ r ∈ [(⟨"web", "100"⟩ : Resource), ⟨"api", "200"⟩],
        occursIn ("-" : String).data r.name.data = false)
      ∧ getNonSingletonImages [(⟨"web", "100"⟩ : Resource), ⟨"api", "200"⟩] "-"
          = [⟨"api", "200"⟩] :=
  ⟨by decide,
    (c10_delimiter_free_share_one_group "-"
      [⟨"web", "100"⟩, ⟨"api", "200"⟩] (by decide)).2⟩
